import Mathlib

/-!
# Shallow embedding of `src/transcoding.c`

This file embeds the control flow and arithmetic of the in-memory audio
transcoder (`transcoding.c`) in Lean 4 and proves the frozen claims about it.

External libav/libswresample behavior (decoder output, encoder packets,
resampler delay, allocation success) is modelled by oracle values carried in
environment records; the logic of each C function in the source file is
translated branch by branch. Machine integers are modelled as `Int`/`Nat`
(every quantity involved in the claims stays far from 32/64-bit bounds on the
inputs considered).
-/

namespace Transcoding

/-! ## Error constants (libavutil/error.h) -/

/-- POSIX `ENOMEM`. -/
def ENOMEM : Int := 12

/-- The value of `AVERROR(e)`, which is `-e` on the usual platforms. -/
def AVERROR (e : Int) : Int := -e

/-- The tag `AVERROR_EXIT`, a fixed negative value. -/
def AVERROR_EXIT : Int := -1414092869

/-- The enum tag value standing for `AV_CODEC_ID_OPUS`; the source only ever
compares codec ids for equality, so only its distinctness matters. -/
def AV_CODEC_ID_OPUS : Int := 86076

/-! ## The resampler output-capacity formula (`read_decode_convert_and_store`)

The source computes
`av_rescale_rnd(delay + input_frame->nb_samples, out_rate, in_rate, AV_ROUND_UP)`.
`av_rescale_rnd` with `AV_ROUND_UP` on nonnegative in-range arguments is
`(a * b + c - 1) / c` in C integer division; all quantities here are
nonnegative, so we model it on `Nat`. -/

/-- Models the library primitive `av_rescale_rnd(a, b, c, AV_ROUND_UP)` for
nonnegative arguments: `(a * b + c - 1) / c`. -/
def av_rescale_rnd_up (a b c : Nat) : Nat := (a * b + c - 1) / c

/-- The output capacity requested from the resampler for one decoded frame:
`av_rescale_rnd(delay + nb_samples, output_rate, input_rate, AV_ROUND_UP)`
(lines 626–650 of the source). -/
def desired_nb_samples (delay nb_samples out_rate in_rate : Nat) : Nat :=
  av_rescale_rnd_up (delay + nb_samples) out_rate in_rate

/-! ## Output parameter negotiation (`set_encoder_params`) -/

/-- The caller's request: `TranscodingArgs.bit_rate` and
`TranscodingArgs.sample_rate` (nonpositive means "not requested"). The
container name only selects the muxer and is not needed here. -/
structure TranscodingArgs where
  bit_rate : Int
  sample_rate : Int
  deriving DecidableEq, Repr

/-- The encoder's declared capabilities, as in `AVCodec`: each list is the
full sentinel-terminated capability array (`none` models a NULL pointer,
i.e. no declared restriction), and `id` is the codec id. -/
structure Encoder where
  channel_layouts : Option (List Int)
  sample_fmts : Option (List Int)
  supported_samplerates : Option (List Int)
  id : Int
  deriving DecidableEq, Repr

/-- The fields of the opened decoder context that the negotiation and the
pipeline read. -/
structure DecCtx where
  channels : Nat
  channel_layout : Int
  sample_fmt : Int
  sample_rate : Int
  deriving DecidableEq, Repr

/-- The encoder-context fields written by `set_encoder_params`. -/
structure EncCtxP where
  channels : Nat
  channel_layout : Int
  sample_fmt : Int
  sample_rate : Int
  bit_rate : Int
  deriving DecidableEq, Repr

/-- Result of `set_encoder_params`: the configured context plus whether the
"unsupported sample rate" warning was printed. -/
structure SetParamsOut where
  ctx : EncCtxP
  rate_warning : Bool
  deriving DecidableEq, Repr

/-- The capability-array scan loop of the source
(`while (arr[idx] != sentinel) { if (arr[idx] == target) found = 1; ... }`):
walks the array, stopping at the sentinel, and reports whether the target
occurs before it. -/
def scan_caps (sentinel target : Int) : List Int → Bool
  | [] => false
  | x :: xs =>
    if x = sentinel then false
    else if x = target then true
    else scan_caps sentinel target xs

/-- The sample-rate selection step of `set_encoder_params` (lines 194–228):
candidate is the explicitly requested rate when positive, else the input's
rate; a declared rate set is scanned for the candidate, and on a miss the
first declared rate is used, with a warning exactly when the request was
explicit. Returns (chosen rate, warning printed). -/
def negotiate_sample_rate (args : TranscodingArgs) (encoder : Encoder)
    (input_rate : Int) : Int × Bool :=
  let cand := if args.sample_rate > 0 then args.sample_rate else input_rate
  match encoder.supported_samplerates with
  | none => (cand, false)
  | some l =>
    if scan_caps 0 cand l then (cand, false)
    else (l.headD 0, args.sample_rate > 0)

/-- Embeds `set_encoder_params` (lines 129–242): copies channel count from the input
and derives the default layout (`av_get_default_channel_layout`, passed as the
oracle `default_layout`), rejects an unsupported layout with `-1`, silently
falls back to the encoder's first sample format on a format miss, negotiates
the sample rate, forces 48000 for Opus, and applies an explicit bit rate over
the context's prior value `bit_rate0`. -/
def set_encoder_params (default_layout : Nat → Int) (args : TranscodingArgs)
    (encoder : Encoder) (input_ctx : DecCtx) (bit_rate0 : Int) :
    Except Unit SetParamsOut :=
  let channels := input_ctx.channels
  let channel_layout := default_layout channels
  let layout_ok :=
    match encoder.channel_layouts with
    | none => true
    | some l => scan_caps 0 channel_layout l
  if layout_ok = false then .error ()
  else
    let sample_fmt :=
      match encoder.sample_fmts with
      | none => input_ctx.sample_fmt
      | some l =>
        if scan_caps (-1) input_ctx.sample_fmt l then input_ctx.sample_fmt
        else l.headD (-1)
    let rw := negotiate_sample_rate args encoder input_ctx.sample_rate
    let sample_rate := if encoder.id = AV_CODEC_ID_OPUS then 48000 else rw.1
    let bit_rate := if args.bit_rate > 0 then args.bit_rate else bit_rate0
    .ok ⟨⟨channels, channel_layout, sample_fmt, sample_rate, bit_rate⟩, rw.2⟩

/-! ## `init_fifo` (lines 419–431)

The source stores `av_audio_fifo_alloc(...)` through the out-parameter and
then tests `if (!fifo)` — the address of the out-parameter itself, not the
stored pointer. We model the out-parameter address validity as a `Bool` and
the allocation result as an `Option` (none = NULL). -/

/-- Embeds `init_fifo`: returns the C return value together with the pointer stored
through the out-parameter. The null test is on the out-parameter address
`fifo_out_param_nonnull`, exactly as in the source, not on `alloc_result`. -/
def init_fifo (fifo_out_param_nonnull : Bool) (alloc_result : Option Unit) :
    Int × Option Unit :=
  let stored := alloc_result
  if fifo_out_param_nonnull = false then (AVERROR ENOMEM, stored)
  else (0, stored)

/-! ## Pipeline events

`Ev` records the transcoding-level resource events: the destination-buffer
allocation (`bio->buf = av_malloc(estimated_bytes)`, line 871), the encoder
context allocation (`avcodec_alloc_context3`, line 296), and every release
performed on an exit path. `Ev.freeDstBuf` is declared so that claims about
the destination buffer's release can be stated; the source contains no
statement that would emit it. -/

inductive Ev where
  | dstAlloc
  | encAlloc
  | freeFifo
  | freeSwr
  | freeEncCtx
  | freeOutFmt
  | freeDecCtx
  | freeInFmt
  | freeDstBuf
  deriving DecidableEq, Repr

/-- One written packet, as observed at `av_write_frame`:
`chunk ptsAssigned nb` is a packet produced for a real frame whose `pts`
field was set to `ptsAssigned` and which carried `nb` samples;
`flushPkt acc` is a packet produced by a NULL-frame flush call, with `acc`
the value of the presentation-time accumulator at the write. -/
inductive WEv where
  | chunk (ptsAssigned : Int) (nb : Nat)
  | flushPkt (acc : Int)
  deriving DecidableEq, Repr

/-! ## Decode-side oracle and `read_decode_convert_and_store` -/

/-- The oracle outcome of one `read_decode_convert_and_store` call: results of
`init_input_frame`, `av_read_frame` (an error, or end of file), the decode
step, the decoded frame when present, the resampler delay, and the results of
the conversion and the FIFO store. -/
structure DecodeOut where
  frame_alloc_ok : Bool
  read_err : Option Int
  eof : Bool
  dec_err : Option Int
  data_present : Bool
  nb_samples : Nat
  delay : Nat
  conv_alloc_ok : Bool
  conv_err : Bool
  conv_nb : Nat
  fifo_err : Bool
  deriving DecidableEq, Repr

/-- Embeds `read_decode_convert_and_store` (lines 585–678) for one oracle step:
returns the number of samples added to the FIFO and the final value of
`*finished` (`finished` is set on EOF and cleared again when the flush still
yielded data, so it ends up as `eof && !data_present`). The requested
conversion capacity is computed by the delay-aware formula; the conversion
reports its own produced count (`conv_nb`). -/
def read_decode_convert_and_store (out_rate in_rate : Nat) (step : DecodeOut) :
    Except Unit (Nat × Bool) :=
  if step.frame_alloc_ok = false then .error ()
  else
    match step.read_err with
    | some _ => .error ()
    | none =>
      match step.dec_err with
      | some _ => .error ()
      | none =>
        let finished := step.eof && !step.data_present
        if finished then .ok (0, true)
        else if step.data_present then
          let _desired := desired_nb_samples step.delay step.nb_samples out_rate in_rate
          if step.conv_alloc_ok = false then .error ()
          else if step.conv_err then .error ()
          else if step.fifo_err then .error ()
          else .ok (step.conv_nb, false)
        else .ok (0, false)

/-- The FILLING loop (lines 922–944): while the FIFO holds fewer samples than
the encoder frame size, decode/convert/store one step; break when `finished`.
An exhausted oracle script stands for `av_read_frame` reporting EOF with no
delayed decoder data, i.e. the step that sets `finished` and adds nothing. -/
def fillLoop (out_rate in_rate fs : Nat) :
    List DecodeOut → Nat → Except Unit (List DecodeOut × Nat × Bool)
  | script, fifo =>
    if fifo < fs then
      match script with
      | [] => .ok ([], fifo, true)
      | s :: rest =>
        match read_decode_convert_and_store out_rate in_rate s with
        | .error _ => .error ()
        | .ok (add, fin) =>
          if fin then .ok (rest, fifo + add, true)
          else fillLoop out_rate in_rate fs rest (fifo + add)
    else .ok (script, fifo, false)

/-! ## Encode side -/

/-- The oracle outcome of one encode call: `init_output_frame` success (only
consulted for real frames), the `avcodec_encode_audio2` error, whether a
packet came out (`*data_present`), and the `av_write_frame` error. -/
structure EncodeOut where
  frame_alloc_ok : Bool
  enc_err : Option Int
  data_present : Bool
  write_err : Option Int
  deriving DecidableEq, Repr

/-- Pop the next encode oracle entry; an exhausted script behaves as an
encoder that keeps succeeding and has no more packets to give. -/
def nextEnc : List EncodeOut → EncodeOut × List EncodeOut
  | [] => (⟨true, none, false, none⟩, [])
  | e :: r => (e, r)

/-- Embeds `encode_audio_frame` (lines 729–776): for a real frame (`some nb`) the
timestamp is assigned from the accumulator and the accumulator advanced by
`nb` before the encode call; a NULL frame (flush) leaves both alone. The
produced packet, when present, is written, yielding a `WEv`. -/
def encode_audio_frame (pts : Int) (frame : Option Nat) (eo : EncodeOut) :
    Except Unit (Int × Option WEv) :=
  let assigned := pts
  let pts1 :=
    match frame with
    | some nb => pts + (nb : Int)
    | none => pts
  match eo.enc_err with
  | some _ => .error ()
  | none =>
    if eo.data_present then
      match eo.write_err with
      | some _ => .error ()
      | none =>
        match frame with
        | some nb => .ok (pts1, some (WEv.chunk assigned nb))
        | none => .ok (pts1, some (WEv.flushPkt pts1))
    else .ok (pts1, none)

/-- Embeds `load_encode_and_write` (lines 779–822): take
`frame_size = FFMIN(fifo_size, encoder frame_size)` samples out of the FIFO
(always available, being the minimum) and run one encode call on them. -/
def load_encode_and_write (pts : Int) (fifo fsEnc : Nat) (eo : EncodeOut) :
    Except Unit (Int × Nat × Option WEv) :=
  let frame_size := min fifo fsEnc
  if eo.frame_alloc_ok = false then .error ()
  else
    match encode_audio_frame pts (some frame_size) eo with
    | .error _ => .error ()
    | .ok (pts1, ev) => .ok (pts1, fifo - frame_size, ev)

/-- Result of the DRAINING loop: failure keeps the packets written so far. -/
inductive DRes where
  | fail (evs : List WEv)
  | ok (fifo : Nat) (pts : Int) (encs : List EncodeOut) (evs : List WEv)
  deriving DecidableEq, Repr

/-- The DRAINING loop (lines 951–962): while the FIFO holds a full encoder
frame, or input is finished and any remainder is left, load/encode/write one
chunk. `none` means the fuel ran out. -/
def drainLoop (fsEnc : Nat) (finished : Bool) :
    Nat → Nat → Int → List EncodeOut → List WEv → Option DRes
  | 0, _, _, _, _ => none
  | fuel + 1, fifo, pts, encs, evs =>
    if fsEnc ≤ fifo ∨ (finished ∧ 0 < fifo) then
      let pe := nextEnc encs
      match load_encode_and_write pts fifo fsEnc pe.1 with
      | .error _ => some (.fail evs)
      | .ok (pts1, fifo1, ev) =>
        drainLoop fsEnc finished fuel fifo1 pts1 pe.2 (evs ++ ev.toList)
    else some (.ok fifo pts encs evs)

/-- Result of the encoder flush loop. -/
inductive FRes where
  | fail (evs : List WEv)
  | ok (pts : Int) (encs : List EncodeOut) (evs : List WEv)
  deriving DecidableEq, Repr

/-- The encoder flush loop (lines 968–983): repeatedly encode with a NULL
frame, writing each produced packet, until `*data_written` is clear. -/
def flushLoop : Nat → Int → List EncodeOut → List WEv → Option FRes
  | 0, _, _, _ => none
  | fuel + 1, pts, encs, evs =>
    let pe := nextEnc encs
    match encode_audio_frame pts none pe.1 with
    | .error _ => some (.fail evs)
    | .ok (pts1, ev) =>
      if pe.1.data_present then flushLoop fuel pts1 pe.2 (evs ++ ev.toList)
      else some (.ok pts1 pe.2 (evs ++ ev.toList))

/-- Result of the main `while (1)` loop. -/
inductive MRes where
  | fail (evs : List WEv)
  | done (pts : Int) (evs : List WEv)
  deriving DecidableEq, Repr

/-- The main loop of `transcoding` (lines 909–984): FILLING, then DRAINING,
then — once `finished` — the encoder flush, else another round. -/
def mainLoop (fsEnc out_rate in_rate : Nat) :
    Nat → List DecodeOut → List EncodeOut → Nat → Int → List WEv → Option MRes
  | 0, _, _, _, _, _ => none
  | fuel + 1, decs, encs, fifo, pts, evs =>
    match fillLoop out_rate in_rate fsEnc decs fifo with
    | .error _ => some (.fail evs)
    | .ok (decs1, fifo1, finished) =>
      match drainLoop fsEnc finished (fuel + 1) fifo1 pts encs evs with
      | none => none
      | some (.fail evs1) => some (.fail evs1)
      | some (.ok fifo2 pts1 encs1 evs1) =>
        if finished then
          match flushLoop (fuel + 1) pts1 encs1 evs1 with
          | none => none
          | some (.fail evs2) => some (.fail evs2)
          | some (.ok pts2 _ evs2) => some (.done pts2 evs2)
        else mainLoop fsEnc out_rate in_rate fuel decs1 encs1 fifo2 pts1 evs1

/-! ## `open_input_stream` (lines 19–127) -/

/-- Oracle results of the external calls made by `open_input_stream`, plus
the demuxed stream's parameters. -/
structure OpenInputEnv where
  fmt_alloc_ok : Bool
  io_init : Int
  open_input : Int
  find_stream_info : Int
  nb_streams : Nat
  decoder_found : Bool
  dec_alloc_ok : Bool
  params_to_ctx : Int
  codecpar_channels : Nat
  codecpar_channel_layout : Int
  sample_fmt : Int
  sample_rate : Nat
  dec_open : Int
  deriving Repr

/-- Embeds `open_input_stream`: every failure path closes what it had opened and
reports the source's error code; in particular a stream count different from
one yields `AVERROR_EXIT` before any decoder is opened. On success the
decoder context carries the demuxed parameters, with the channel layout
defaulted from the channel count when the container left it zero. -/
def open_input_stream (default_layout : Nat → Int) (e : OpenInputEnv) :
    Except Int DecCtx :=
  if e.fmt_alloc_ok = false then .error (AVERROR ENOMEM)
  else if e.io_init ≠ 0 then .error e.io_init
  else if e.open_input < 0 then .error e.open_input
  else if e.find_stream_info < 0 then .error e.find_stream_info
  else if e.nb_streams ≠ 1 then .error AVERROR_EXIT
  else if e.decoder_found = false then .error AVERROR_EXIT
  else if e.dec_alloc_ok = false then .error (AVERROR ENOMEM)
  else if e.params_to_ctx < 0 then .error e.params_to_ctx
  else
    let layout :=
      if e.codecpar_channel_layout = 0 then default_layout e.codecpar_channels
      else e.codecpar_channel_layout
    if e.dec_open < 0 then .error e.dec_open
    else .ok ⟨e.codecpar_channels, layout, e.sample_fmt, (e.sample_rate : Int)⟩

/-! ## `open_output_stream` (lines 245–347) -/

/-- Oracle results of the external calls made by `open_output_stream`, the
encoder's declared capabilities, and the opened encoder's frame size. -/
structure OpenOutputEnv where
  fmt_alloc : Int
  io_init : Int
  encoder_found : Bool
  encoder : Encoder
  new_stream_ok : Bool
  enc_alloc_ok : Bool
  enc_bit_rate0 : Int
  enc_open : Int
  params_from_ctx : Int
  frame_size : Nat
  deriving Repr

/-- Embeds `open_output_stream`, mirroring the goto-cleanup structure; the
event list records the encoder-context allocation and the releases the
function performs itself on failure (after which the caller sees NULLs). -/
def open_output_stream (default_layout : Nat → Int) (args : TranscodingArgs)
    (oe : OpenOutputEnv) (input_ctx : DecCtx) :
    Except Int (EncCtxP × Nat) × List Ev :=
  if oe.fmt_alloc < 0 then (.error oe.fmt_alloc, [])
  else if oe.io_init ≠ 0 then (.error oe.io_init, [Ev.freeOutFmt])
  else if oe.encoder_found = false then (.error AVERROR_EXIT, [Ev.freeOutFmt])
  else if oe.new_stream_ok = false then
    (.error (AVERROR ENOMEM), [Ev.freeOutFmt])
  else if oe.enc_alloc_ok = false then
    (.error (AVERROR ENOMEM), [Ev.freeOutFmt])
  else
    match set_encoder_params default_layout args oe.encoder input_ctx
        oe.enc_bit_rate0 with
    | .error _ =>
      (.error (-1), [Ev.encAlloc, Ev.freeEncCtx, Ev.freeOutFmt])
    | .ok sp =>
      if oe.enc_open < 0 then
        (.error oe.enc_open, [Ev.encAlloc, Ev.freeEncCtx, Ev.freeOutFmt])
      else if oe.params_from_ctx < 0 then
        (.error oe.params_from_ctx, [Ev.encAlloc, Ev.freeEncCtx, Ev.freeOutFmt])
      else (.ok (sp.ctx, oe.frame_size), [Ev.encAlloc])

/-! ## `transcoding` (lines 840–1027) -/

/-- The full oracle environment of one `transcoding` call. -/
structure Env where
  default_layout : Nat → Int
  args : TranscodingArgs
  inp : OpenInputEnv
  dst_alloc_ok : Bool
  out : OpenOutputEnv
  swr_alloc_ok : Bool
  swr_init : Int
  fifo_alloc_ok : Bool
  write_header : Int
  decSteps : List DecodeOut
  encSteps : List EncodeOut
  write_trailer : Int
  bio_final_size : Nat

/-- The out-parameters written on the success path (lines 992–998):
`p_dst_buf->size`, the accumulator behind `*out_duration`, and the sample
rate they are computed from. -/
structure SuccOuts where
  dst_size : Nat
  pts : Int
  sample_rate : Int
  deriving DecidableEq, Repr

/-- Observable result of one `transcoding` call: the return value, the
chronological resource-event trace, the written packets, and the
out-parameter writes (`none` = the caller's variables were never assigned). -/
structure TResult where
  ret : Int
  trace : List Ev
  events : List WEv
  outs : Option SuccOuts
  deriving Repr

/-- The `cleanup` label (lines 1002–1026): releases, in source order, each of
the FIFO, resampler, encoder context, output format context, decoder context
and input format context that is still live. No statement under the label
touches the destination buffer. -/
def cleanup (fifo swr enc outf dec inf : Bool) : List Ev :=
  (if fifo then [Ev.freeFifo] else []) ++
  (if swr then [Ev.freeSwr] else []) ++
  (if enc then [Ev.freeEncCtx] else []) ++
  (if outf then [Ev.freeOutFmt] else []) ++
  (if dec then [Ev.freeDecCtx] else []) ++
  (if inf then [Ev.freeInFmt] else [])

/-- A `goto cleanup` exit: the out-parameters are left untouched. -/
def failRes (ret : Int) (trace : List Ev) (events : List WEv) : TResult :=
  ⟨ret, trace, events, none⟩

/-- Embeds `transcoding` itself. `ret` starts as `AVERROR(AVERROR_EXIT)` and, except
for the destination-buffer allocation failure (which sets `AVERROR(ENOMEM)`),
is never reassigned before a `goto cleanup`, so every failure returns one of
those two values; the out-parameters are assigned only after the trailer
write succeeded. `none` = the loop fuel ran out. -/
def transcoding (fuel : Nat) (env : Env) : Option TResult :=
  match open_input_stream env.default_layout env.inp with
  | .error _ =>
    some (failRes (AVERROR AVERROR_EXIT)
      (cleanup false false false false false false) [])
  | .ok inCtx =>
    if env.dst_alloc_ok = false then
      some (failRes (AVERROR ENOMEM)
        (cleanup false false false false true true) [])
    else
      let t0 := [Ev.dstAlloc]
      match open_output_stream env.default_layout env.args env.out inCtx with
      | (.error _, oevs) =>
        some (failRes (AVERROR AVERROR_EXIT)
          (t0 ++ oevs ++ cleanup false false false false true true) [])
      | (.ok (encCtx, fsEnc), oevs) =>
        let t1 := t0 ++ oevs
        if env.swr_alloc_ok = false then
          some (failRes (AVERROR AVERROR_EXIT)
            (t1 ++ cleanup false false true true true true) [])
        else if env.swr_init < 0 then
          some (failRes (AVERROR AVERROR_EXIT)
            (t1 ++ [Ev.freeSwr] ++ cleanup false false true true true true) [])
        else
          let fr := init_fifo true (if env.fifo_alloc_ok then some () else none)
          if fr.1 ≠ 0 then
            some (failRes (AVERROR AVERROR_EXIT)
              (t1 ++ cleanup fr.2.isSome true true true true true) [])
          else
            let cl := cleanup fr.2.isSome true true true true true
            if env.write_header < 0 then
              some (failRes (AVERROR AVERROR_EXIT) (t1 ++ cl) [])
            else
              match mainLoop fsEnc encCtx.sample_rate.toNat
                  inCtx.sample_rate.toNat fuel env.decSteps env.encSteps
                  0 0 [] with
              | none => none
              | some (.fail evs) =>
                some (failRes (AVERROR AVERROR_EXIT) (t1 ++ cl) evs)
              | some (.done pts evs) =>
                if env.write_trailer < 0 then
                  some (failRes (AVERROR AVERROR_EXIT) (t1 ++ cl) evs)
                else
                  some ⟨0, t1 ++ cl, evs,
                    some ⟨env.bio_final_size, pts, encCtx.sample_rate⟩⟩

/-! ## Observations on the written-packet trace -/

/-- The presentation-time accumulator's value at the moment a packet is
written: a chunk packet is written after the accumulator advanced past it,
a flush packet sees the unchanged accumulator. -/
def accAt : WEv → Int
  | .chunk p nb => p + (nb : Int)
  | .flushPkt a => a

/-- Accumulator values at each written packet, in write order. -/
def accSeq (evs : List WEv) : List Int := evs.map accAt

/-- Whether a list of integers is strictly increasing. -/
def strictChain : List Int → Bool
  | [] => true
  | [_] => true
  | a :: b :: r => if a < b then strictChain (b :: r) else false

/-- Replays the accumulator discipline over a packet trace, carrying a lower
bound `acc` for the accumulator: a chunk packet's timestamp is the
accumulator at its encode call — at least `acc`, since the accumulator never
decreases (it may have advanced past `acc` through chunks whose packet the
encoder withheld) — and the call advances it by exactly the chunk's sample
count; a flush packet records the accumulator without advancing it. Returns
a lower bound for the accumulator after the trace, or `none` when the trace
violates the discipline. -/
def tsChainFrom (acc : Int) : List WEv → Option Int
  | [] => some acc
  | .chunk p nb :: r => if acc ≤ p then tsChainFrom (p + (nb : Int)) r else none
  | .flushPkt a :: r => if acc ≤ a then tsChainFrom a r else none

/-- The accumulator values recorded by flush packets, in write order. -/
def flushVals : List WEv → List Int
  | [] => []
  | .chunk _ _ :: r => flushVals r
  | .flushPkt a :: r => a :: flushVals r

/-- The timestamps assigned to chunk packets, in write order. -/
def chunkPts : List WEv → List Int
  | [] => []
  | .chunk p _ :: r => p :: chunkPts r
  | .flushPkt _ :: r => chunkPts r

/-- Every chunk packet in the trace carries at least one sample. -/
def allChunksPos : List WEv → Bool
  | [] => true
  | .chunk _ nb :: r => if 1 ≤ nb then allChunksPos r else false
  | .flushPkt _ :: r => allChunksPos r

/-! ## Concrete environments used by witnesses and counterexamples -/

/-- A concrete stand-in for `av_get_default_channel_layout`: stereo (2
channels) maps to layout tag 3, mono to 4, anything else to 0. -/
def dl0 : Nat → Int := fun n => if n = 2 then 3 else if n = 1 then 4 else 0

/-- An input that opens cleanly: one stereo 44100 Hz stream. -/
def inp_good : OpenInputEnv :=
  ⟨true, 0, 0, 0, 1, true, true, 0, 2, 3, 1, 44100, 0⟩

/-- An encoder accepting stereo, sample format 1 and rates 44100/48000. -/
def encoder_good : Encoder := ⟨some [3, 0], some [1, -1], some [44100, 48000, 0], 0⟩

/-- An output side that opens cleanly with `encoder_good`, frame size 4. -/
def out_good : OpenOutputEnv := ⟨0, 0, true, encoder_good, true, true, 128000, 0, 0, 4⟩

/-- A decode step producing one 4-sample frame converted to 4 samples. -/
def dstep4 : DecodeOut := ⟨true, none, false, none, true, 4, 0, true, false, 4, false⟩

/-- An encode call that produces and writes a packet. -/
def estepY : EncodeOut := ⟨true, none, true, none⟩

/-- An encode call that produces no packet. -/
def estepN : EncodeOut := ⟨true, none, false, none⟩

/-- A fully successful run in which the encoder also emits two delayed
packets during the end-of-stream flush. -/
def envC3 : Env :=
  ⟨dl0, ⟨0, 0⟩, inp_good, true, out_good, true, 0, true, 0,
    [dstep4], [estepY, estepY, estepY, estepN], 0, 100⟩

/-- A run that fails inside `open_output_stream` (the encoder declares only
channel layout 4, the derived stereo layout 3 is rejected) after the
destination buffer was allocated. -/
def envC1 : Env :=
  ⟨dl0, ⟨0, 0⟩, inp_good, true,
    ⟨0, 0, true, ⟨some [4, 0], some [1, -1], some [44100, 48000, 0], 0⟩,
      true, true, 128000, 0, 0, 4⟩,
    true, 0, true, 0, [dstep4], [estepY], 0, 100⟩

/-- A source whose container reports two audio streams. -/
def envC2 : Env :=
  ⟨dl0, ⟨0, 0⟩, ⟨true, 0, 0, 0, 2, true, true, 0, 2, 3, 1, 44100, 0⟩, true,
    out_good, true, 0, true, 0, [dstep4], [estepY], 0, 100⟩

/-- An Opus encoder with a restricted rate set missing the request, and an
explicit 44100 Hz request. -/
def encoder_opus : Encoder := ⟨some [3, 0], some [1, -1], some [24000, 0], AV_CODEC_ID_OPUS⟩

/-- A decoder context matching `inp_good`. -/
def inCtx0 : DecCtx := ⟨2, 3, 1, 44100⟩

/-- A run whose output codec is Opus, with an explicit 44100 Hz request. -/
def envC6 : Env :=
  ⟨dl0, ⟨0, 44100⟩, inp_good, true,
    ⟨0, 0, true, encoder_opus, true, true, 128000, 0, 0, 4⟩,
    true, 0, true, 0, [dstep4], [estepY, estepN], 0, 100⟩

/-! # Theorems -/

/-- Unfolded form of `set_encoder_params` (definitional). -/
theorem set_encoder_params_eq (dl : Nat → Int) (args : TranscodingArgs)
    (enc : Encoder) (inCtx : DecCtx) (b0 : Int) :
    set_encoder_params dl args enc inCtx b0 =
      if (match enc.channel_layouts with
          | none => true
          | some l => scan_caps 0 (dl inCtx.channels) l) = false
      then .error ()
      else .ok ⟨⟨inCtx.channels, dl inCtx.channels,
        (match enc.sample_fmts with
         | none => inCtx.sample_fmt
         | some l =>
           if scan_caps (-1) inCtx.sample_fmt l then inCtx.sample_fmt
           else l.headD (-1)),
        (if enc.id = AV_CODEC_ID_OPUS then 48000
         else (negotiate_sample_rate args enc inCtx.sample_rate).1),
        (if args.bit_rate > 0 then args.bit_rate else b0)⟩,
        (negotiate_sample_rate args enc inCtx.sample_rate).2⟩ := rfl

/-- Claim C4: for every decoded frame fed to the resampler, the requested
output capacity `desired_nb_samples` is exactly
`ceil((delay + nb_samples) * out_rate / in_rate)`: it covers everything
pending in the resampler plus the new input frame scaled to the output rate,
and it is the least such capacity. -/
theorem C4_resampler_capacity (d n o i : Nat) (hi : 0 < i) :
    (d + n) * o ≤ desired_nb_samples d n o i * i ∧
    ∀ m : Nat, (d + n) * o ≤ m * i → desired_nb_samples d n o i ≤ m := by
  unfold desired_nb_samples av_rescale_rnd_up
  generalize (d + n) * o = x
  constructor
  · have h1 : i * ((x + i - 1) / i) + (x + i - 1) % i = x + i - 1 :=
      Nat.div_add_mod _ _
    have h2 : (x + i - 1) % i < i := Nat.mod_lt _ hi
    rw [Nat.mul_comm]
    generalize hq : (x + i - 1) / i = q at h1 ⊢
    generalize hr : (x + i - 1) % i = r at h1 h2
    generalize hp : i * q = p at h1 ⊢
    omega
  · intro m hm
    have h3 : (x + i - 1) / i < m + 1 := by
      rw [Nat.div_lt_iff_lt_mul hi]
      have he : (m + 1) * i = m * i + i := by ring
      rw [he]
      generalize m * i = t at hm ⊢
      omega
    omega

/-- Witness for C4 at delay 3, frame 5 samples, 44100 → 48000 Hz. -/
theorem C4_resampler_capacity_witness :
    (3 + 5) * 48000 ≤ desired_nb_samples 3 5 48000 44100 * 44100 ∧
    ∀ m : Nat, (3 + 5) * 48000 ≤ m * 44100 → desired_nb_samples 3 5 48000 44100 ≤ m :=
  C4_resampler_capacity 3 5 48000 44100 (by decide)

/-- Claim C9: with a non-null `fifo` out-parameter, `init_fifo` returns success
and stores whatever `av_audio_fifo_alloc` returned — even NULL: the null
check tests the out-parameter's address, so the allocation-failure branch is
unreachable and allocation failure is never surfaced as out-of-memory. -/
theorem C9_init_fifo_check_unreachable (alloc : Option Unit) :
    init_fifo true alloc = (0, alloc) := rfl

/-- Claim C7: output negotiation uses the default layout derived from the
input's channel count; a declared layout set that misses it makes
`set_encoder_params` fail; on success the layout is always the derived one
(no fallback), whereas a sample-format miss silently falls back to the
encoder's first declared format. -/
theorem C7_layout_negotiation (dl : Nat → Int) (args : TranscodingArgs)
    (enc : Encoder) (inCtx : DecCtx) (b0 : Int) :
    (∀ l, enc.channel_layouts = some l →
      scan_caps 0 (dl inCtx.channels) l = false →
      set_encoder_params dl args enc inCtx b0 = .error ()) ∧
    (∀ out, set_encoder_params dl args enc inCtx b0 = .ok out →
      out.ctx.channel_layout = dl inCtx.channels ∧
      out.ctx.channels = inCtx.channels) ∧
    (∀ l out, enc.sample_fmts = some l →
      scan_caps (-1) inCtx.sample_fmt l = false →
      set_encoder_params dl args enc inCtx b0 = .ok out →
      out.ctx.sample_fmt = l.headD (-1)) := by
  refine ⟨?_, ?_, ?_⟩
  · intro l hl hs
    simp [set_encoder_params_eq, hl, hs]
  · intro out hok
    rw [set_encoder_params_eq] at hok
    split at hok
    · exact absurd hok (by simp)
    · obtain rfl := Except.ok.inj hok
      exact ⟨rfl, rfl⟩
  · intro l out hl hs hok
    rw [set_encoder_params_eq] at hok
    split at hok
    · exact absurd hok (by simp)
    · obtain rfl := Except.ok.inj hok
      simp [hl, hs]

/-- Witness for C7: the stereo default layout 3 is missing from the declared
set, so negotiation fails. -/
theorem C7_layout_negotiation_witness :
    set_encoder_params dl0 ⟨0, 0⟩ ⟨some [4, 0], some [1, -1], some [44100, 48000, 0], 0⟩
      inCtx0 128000 = .error () :=
  (C7_layout_negotiation dl0 ⟨0, 0⟩ _ inCtx0 128000).1 [4, 0] rfl (by decide)

/-- Claim C5: the sample-rate negotiation step (lines 194–228): the candidate
is the explicit request when positive, else the input's rate; with no
declared restriction the candidate is used as-is; with a declared set, a
member candidate is kept and a miss falls back to the first declared rate,
warning exactly when the request was explicit; the rate step never makes
`set_encoder_params` fail (failure comes only from the layout check), and
for a non-Opus encoder the negotiated rate and warning are what the
configured context carries. -/
theorem C5_sample_rate_negotiation (dl : Nat → Int) (args : TranscodingArgs)
    (enc : Encoder) (inCtx : DecCtx) (b0 : Int) :
    (enc.supported_samplerates = none →
      negotiate_sample_rate args enc inCtx.sample_rate =
        ((if args.sample_rate > 0 then args.sample_rate else inCtx.sample_rate),
          false)) ∧
    (∀ l, enc.supported_samplerates = some l →
      scan_caps 0 (if args.sample_rate > 0 then args.sample_rate
        else inCtx.sample_rate) l = true →
      negotiate_sample_rate args enc inCtx.sample_rate =
        ((if args.sample_rate > 0 then args.sample_rate else inCtx.sample_rate),
          false)) ∧
    (∀ l, enc.supported_samplerates = some l →
      scan_caps 0 (if args.sample_rate > 0 then args.sample_rate
        else inCtx.sample_rate) l = false →
      (negotiate_sample_rate args enc inCtx.sample_rate).1 = l.headD 0 ∧
      ((negotiate_sample_rate args enc inCtx.sample_rate).2 = true ↔
        args.sample_rate > 0)) ∧
    (∀ out, set_encoder_params dl args enc inCtx b0 = .ok out →
      enc.id ≠ AV_CODEC_ID_OPUS →
      out.ctx.sample_rate = (negotiate_sample_rate args enc inCtx.sample_rate).1 ∧
      out.rate_warning = (negotiate_sample_rate args enc inCtx.sample_rate).2) ∧
    (set_encoder_params dl args enc inCtx b0 = .error () →
      ∃ l, enc.channel_layouts = some l ∧
        scan_caps 0 (dl inCtx.channels) l = false) := by
  refine ⟨?_, ?_, ?_, ?_, ?_⟩
  · intro hn
    simp [negotiate_sample_rate, hn]
  · intro l hl hs
    simp [negotiate_sample_rate, hl, hs]
  · intro l hl hs
    simp [negotiate_sample_rate, hl, hs]
  · intro out hok hid
    rw [set_encoder_params_eq] at hok
    split at hok
    · exact absurd hok (by simp)
    · obtain rfl := Except.ok.inj hok
      simp [hid]
  · intro herr
    rw [set_encoder_params_eq] at herr
    split at herr
    · rename_i hfalse
      match hcl : enc.channel_layouts with
      | none => rw [hcl] at hfalse; simp at hfalse
      | some l =>
        rw [hcl] at hfalse
        exact ⟨l, rfl, hfalse⟩
    · exact absurd herr (by simp)

/-- Witness for C5: explicit 22050 Hz request against a declared set missing
it falls back to 44100 with a warning, and the configured context carries
that rate. -/
theorem C5_sample_rate_negotiation_witness :
    (negotiate_sample_rate ⟨0, 22050⟩ encoder_good (44100 : Int)).1 = 44100 ∧
    ((negotiate_sample_rate ⟨0, 22050⟩ encoder_good (44100 : Int)).2 = true ↔
      (22050 : Int) > 0) :=
  ((C5_sample_rate_negotiation dl0 ⟨0, 22050⟩ encoder_good inCtx0 128000).2.2.1
    [44100, 48000, 0] rfl (by decide))

/-- A successful `open_output_stream` hands back exactly the context that
`set_encoder_params` configured. -/
theorem open_output_stream_ok_ctx (dl : Nat → Int) (args : TranscodingArgs)
    (oe : OpenOutputEnv) (inCtx : DecCtx) (ctx : EncCtxP) (fs : Nat)
    (evs : List Ev)
    (h : open_output_stream dl args oe inCtx = (.ok (ctx, fs), evs)) :
    ∃ sp, set_encoder_params dl args oe.encoder inCtx oe.enc_bit_rate0 = .ok sp ∧
      ctx = sp.ctx := by
  unfold open_output_stream at h
  repeat' split at h
  all_goals simp_all

/-- No branch of `open_output_stream` releases the destination buffer. -/
theorem freeDstBuf_not_mem_open_output (dl : Nat → Int) (args : TranscodingArgs)
    (oe : OpenOutputEnv) (inCtx : DecCtx) :
    Ev.freeDstBuf ∉ (open_output_stream dl args oe inCtx).2 := by
  unfold open_output_stream
  repeat' split
  all_goals simp

/-- The `cleanup` label never releases the destination buffer. -/
theorem freeDstBuf_not_mem_cleanup (a b c d e f : Bool) :
    Ev.freeDstBuf ∉ cleanup a b c d e f := by
  revert a b c d e f
  decide

/-- A `transcoding` result carrying out-parameter writes comes from a run
whose input and output negotiations succeeded, and reports the sample rate
of the negotiated encoder context. -/
theorem transcoding_success_shape (env : Env) (fuel : Nat) (r : TResult)
    (h : transcoding fuel env = some r) (o : SuccOuts) (ho : r.outs = some o) :
    ∃ inCtx ctx fs oevs,
      open_input_stream env.default_layout env.inp = .ok inCtx ∧
      open_output_stream env.default_layout env.args env.out inCtx =
        (.ok (ctx, fs), oevs) ∧
      o.sample_rate = ctx.sample_rate := by
  simp only [transcoding] at h
  repeat' split at h
  all_goals (try exact Option.noConfusion h)
  all_goals (obtain rfl := Option.some.inj h)
  all_goals (simp only [failRes] at ho)
  all_goals (try exact Option.noConfusion ho)
  all_goals obtain rfl := Option.some.inj ho
  all_goals rename_i x2 c1 hin hd x1 ec fs1 oev hout a1 a2 a3 a4 a5 x0 p1 ev1 hm hw
  all_goals exact ⟨c1, ec, fs1, oev, hin, hout, rfl⟩

/-- Claim C6: whenever the chosen encoder is the Opus codec, the negotiated
output sample rate is 48000 — both in the configured encoder context and in
the sample rate a successful `transcoding` call reports through its
out-parameters — regardless of the requested rate, the input rate and the
rate-set negotiation. -/
theorem C6_opus_forces_48000 :
    (∀ (dl : Nat → Int) (args : TranscodingArgs) (enc : Encoder)
        (inCtx : DecCtx) (b0 : Int) (out : SetParamsOut),
      enc.id = AV_CODEC_ID_OPUS →
      set_encoder_params dl args enc inCtx b0 = .ok out →
      out.ctx.sample_rate = 48000) ∧
    (∀ (env : Env) (fuel : Nat) (r : TResult) (o : SuccOuts),
      env.out.encoder.id = AV_CODEC_ID_OPUS →
      transcoding fuel env = some r → r.outs = some o →
      o.sample_rate = 48000) := by
  have base : ∀ (dl : Nat → Int) (args : TranscodingArgs) (enc : Encoder)
      (inCtx : DecCtx) (b0 : Int) (out : SetParamsOut),
      enc.id = AV_CODEC_ID_OPUS →
      set_encoder_params dl args enc inCtx b0 = .ok out →
      out.ctx.sample_rate = 48000 := by
    intro dl args enc inCtx b0 out hid hok
    rw [set_encoder_params_eq] at hok
    split at hok
    · exact absurd hok (by simp)
    · obtain rfl := Except.ok.inj hok
      simp [hid]
  refine ⟨base, ?_⟩
  intro env fuel r o hid h ho
  obtain ⟨inCtx, ctx, fs, oevs, hin, hout, hsr⟩ :=
    transcoding_success_shape env fuel r h o ho
  obtain ⟨sp, hsp, hctx⟩ :=
    open_output_stream_ok_ctx _ _ _ _ _ _ _ hout
  rw [hsr, hctx]
  exact base _ _ _ _ _ _ hid hsp

/-- Witness for C6: Opus with an explicit 44100 Hz request and a declared
rate set of only 24000 still reports 48000. -/
theorem C6_opus_forces_48000_witness :
    (⟨100, 4, 48000⟩ : SuccOuts).sample_rate = 48000 :=
  C6_opus_forces_48000.2 envC6 8
    ⟨0, [Ev.dstAlloc, Ev.encAlloc, Ev.freeFifo, Ev.freeSwr, Ev.freeEncCtx,
        Ev.freeOutFmt, Ev.freeDecCtx, Ev.freeInFmt],
      [WEv.chunk 0 4], some ⟨100, 4, 48000⟩⟩
    ⟨100, 4, 48000⟩ rfl rfl rfl

/-- Claim C2: when the container opens cleanly but reports a stream count
different from one, `open_input_stream` fails with `AVERROR_EXIT` (the
unsupported-stream-count error) and `transcoding` returns a failure whose
trace holds no destination-buffer allocation and no encoder allocation —
the failure precedes both — and whose out-parameters are untouched. -/
theorem C2_stream_count_guard (env : Env) (fuel : Nat)
    (h1 : env.inp.fmt_alloc_ok = true) (h2 : env.inp.io_init = 0)
    (h3 : ¬ env.inp.open_input < 0) (h4 : ¬ env.inp.find_stream_info < 0)
    (h5 : env.inp.nb_streams ≠ 1) :
    open_input_stream env.default_layout env.inp = .error AVERROR_EXIT ∧
    transcoding fuel env = some ⟨AVERROR AVERROR_EXIT, [], [], none⟩ ∧
    ∀ r, transcoding fuel env = some r →
      Ev.dstAlloc ∉ r.trace ∧ Ev.encAlloc ∉ r.trace ∧ r.outs = none := by
  have hin : open_input_stream env.default_layout env.inp = .error AVERROR_EXIT := by
    simp [open_input_stream, h1, h2, h3, h4, h5]
  have htr : transcoding fuel env = some ⟨AVERROR AVERROR_EXIT, [], [], none⟩ := by
    simp [transcoding, hin, failRes, cleanup]
  refine ⟨hin, htr, ?_⟩
  intro r hr
  rw [htr] at hr
  obtain rfl := Option.some.inj hr
  exact ⟨by simp, by simp, rfl⟩

/-- Witness for C2 at a concrete two-stream source. -/
theorem C2_stream_count_guard_witness :
    open_input_stream envC2.default_layout envC2.inp = .error AVERROR_EXIT ∧
    transcoding 8 envC2 = some ⟨AVERROR AVERROR_EXIT, [], [], none⟩ ∧
    ∀ r, transcoding 8 envC2 = some r →
      Ev.dstAlloc ∉ r.trace ∧ Ev.encAlloc ∉ r.trace ∧ r.outs = none :=
  C2_stream_count_guard envC2 8 rfl rfl (by decide) (by decide) (by decide)

/-- Claim C10: whenever `transcoding` returns a nonzero (failure) code, none of
the caller-visible out-parameters has been written: they are assigned only on
the success path after the trailer write. -/
theorem C10_failure_leaves_outs_unwritten (env : Env) (fuel : Nat)
    (r : TResult) (h : transcoding fuel env = some r) (hr : r.ret ≠ 0) :
    r.outs = none := by
  simp only [transcoding] at h
  repeat' split at h
  all_goals (try exact Option.noConfusion h)
  all_goals obtain rfl := Option.some.inj h
  all_goals (try rfl)
  all_goals exact absurd rfl hr

/-- Witness for C10 at the concrete failing run `envC1`. -/
theorem C10_failure_leaves_outs_unwritten_witness :
    (⟨AVERROR AVERROR_EXIT,
      [Ev.dstAlloc, Ev.encAlloc, Ev.freeEncCtx, Ev.freeOutFmt,
        Ev.freeDecCtx, Ev.freeInFmt], [], none⟩ : TResult).outs = none :=
  C10_failure_leaves_outs_unwritten envC1 8 _ rfl (by decide)

/-- No outcome of `open_output_stream` contains a destination-buffer
release. -/
theorem not_free_dst_open_output (dl : Nat → Int) (args : TranscodingArgs)
    (oe : OpenOutputEnv) (inCtx : DecCtx) (res : Except Int (EncCtxP × Nat))
    (evs : List Ev) (h : open_output_stream dl args oe inCtx = (res, evs)) :
    Ev.freeDstBuf ∉ evs := by
  have hm := freeDstBuf_not_mem_open_output dl args oe inCtx
  rw [h] at hm
  exact hm

/-- Claim C1, settled as a code bug: a concrete failing run (`envC1`: the output
negotiation rejects the derived channel layout after the destination buffer
was allocated): the call fails, the buffer was allocated, it is never handed
to the caller — and, against the claim, it is never released either; in
fact no run of `transcoding` ever emits a destination-buffer release, so a
failing call leaks the buffer rather than freeing it. -/
theorem C1_dst_buffer_leaked_on_failure :
    transcoding 8 envC1 =
      some ⟨AVERROR AVERROR_EXIT,
        [Ev.dstAlloc, Ev.encAlloc, Ev.freeEncCtx, Ev.freeOutFmt,
          Ev.freeDecCtx, Ev.freeInFmt], [], none⟩ ∧
    AVERROR AVERROR_EXIT ≠ 0 ∧
    Ev.dstAlloc ∈ [Ev.dstAlloc, Ev.encAlloc, Ev.freeEncCtx, Ev.freeOutFmt,
      Ev.freeDecCtx, Ev.freeInFmt] ∧
    Ev.freeDstBuf ∉ [Ev.dstAlloc, Ev.encAlloc, Ev.freeEncCtx, Ev.freeOutFmt,
      Ev.freeDecCtx, Ev.freeInFmt] ∧
    ∀ (env : Env) (fuel : Nat) (r : TResult),
      transcoding fuel env = some r → Ev.freeDstBuf ∉ r.trace := by
  refine ⟨rfl, by decide, by decide, by decide, ?_⟩
  intro env fuel r h
  simp only [transcoding] at h
  repeat' split at h
  all_goals (try exact Option.noConfusion h)
  all_goals obtain rfl := Option.some.inj h
  all_goals simp [failRes, freeDstBuf_not_mem_cleanup]
  all_goals exact not_free_dst_open_output _ _ _ _ _ _ (by assumption)

/-! ## Presentation-time accumulator lemmas (claim C3) -/

/-- The accumulator replay splits over concatenation. -/
theorem tsChainFrom_append (l1 l2 : List WEv) (acc : Int) :
    tsChainFrom acc (l1 ++ l2) =
      (tsChainFrom acc l1).bind fun a => tsChainFrom a l2 := by
  induction l1 generalizing acc with
  | nil => simp [tsChainFrom]
  | cons e r ih =>
    cases e with
    | chunk p nb => by_cases hp : acc ≤ p <;> simp [tsChainFrom, hp, ih]
    | flushPkt a => by_cases hp : acc ≤ a <;> simp [tsChainFrom, hp, ih]

/-- The replayed accumulator never decreases. -/
theorem tsChainFrom_le (t : List WEv) (acc a2 : Int)
    (h : tsChainFrom acc t = some a2) : acc ≤ a2 := by
  induction t generalizing acc with
  | nil =>
    simp only [tsChainFrom, Option.some.injEq] at h
    omega
  | cons e r ih =>
    cases e with
    | chunk p nb =>
      simp only [tsChainFrom] at h
      split at h
      · rename_i hap
        have := ih _ h
        omega
      · exact absurd h (by simp)
    | flushPkt a =>
      simp only [tsChainFrom] at h
      split at h
      · rename_i hap
        have := ih _ h
        omega
      · exact absurd h (by simp)

/-- A conforming trace also conforms from any smaller starting bound. -/
theorem tsChainFrom_mono (t : List WEv) (acc a2 b : Int) (hb : b ≤ acc)
    (h : tsChainFrom acc t = some a2) :
    ∃ b2, tsChainFrom b t = some b2 ∧ b2 ≤ a2 := by
  cases t with
  | nil =>
    simp only [tsChainFrom, Option.some.injEq] at h
    exact ⟨b, rfl, by omega⟩
  | cons e r =>
    cases e with
    | chunk p nb =>
      simp only [tsChainFrom] at h ⊢
      split at h
      · rename_i hap
        rw [if_pos (le_trans hb hap)]
        exact ⟨a2, h, le_rfl⟩
      · exact absurd h (by simp)
    | flushPkt a =>
      simp only [tsChainFrom] at h ⊢
      split at h
      · rename_i hap
        rw [if_pos (le_trans hb hap)]
        exact ⟨a2, h, le_rfl⟩
      · exact absurd h (by simp)

/-- Prepending a strict lower bound preserves strict increase. -/
theorem strictChain_cons_of (p : Int) (l : List Int) (hlt : ∀ q ∈ l, p < q)
    (hs : strictChain l = true) : strictChain (p :: l) = true := by
  cases l with
  | nil => rfl
  | cons q r =>
    simp only [strictChain]
    rw [if_pos (hlt q (List.mem_cons_self q r))]
    exact hs

/-- A conforming trace with positive chunk sizes has strictly increasing
chunk timestamps, all at least the starting bound. -/
theorem tsChain_strict (t : List WEv) (acc a2 : Int)
    (h : tsChainFrom acc t = some a2) (hpos : allChunksPos t = true) :
    strictChain (chunkPts t) = true ∧ ∀ q ∈ chunkPts t, acc ≤ q := by
  induction t generalizing acc with
  | nil => exact ⟨rfl, by simp [chunkPts]⟩
  | cons e r ih =>
    cases e with
    | chunk p nb =>
      simp only [tsChainFrom] at h
      split at h
      · rename_i hap
        simp only [allChunksPos] at hpos
        split at hpos
        · rename_i hnb
          obtain ⟨hs, hb⟩ := ih _ h hpos
          simp only [chunkPts]
          constructor
          · apply strictChain_cons_of
            · intro q hq
              have := hb q hq
              omega
            · exact hs
          · intro q hq
            rcases List.mem_cons.mp hq with rfl | hq
            · exact hap
            · have := hb q hq
              omega
        · exact absurd hpos (by simp)
      · exact absurd h (by simp)
    | flushPkt a =>
      simp only [tsChainFrom] at h
      split at h
      · rename_i hap
        simp only [allChunksPos] at hpos
        obtain ⟨hs, hb⟩ := ih _ h hpos
        simp only [chunkPts]
        refine ⟨hs, ?_⟩
        intro q hq
        have := hb q hq
        omega
      · exact absurd h (by simp)

/-- A list of identical flush packets replays from any bound below their
value. -/
theorem tsChainFrom_flushlist (t : List WEv) (c : Int) :
    ∀ b, b ≤ c → (∀ e ∈ t, e = WEv.flushPkt c) →
      ∃ a, tsChainFrom b t = some a ∧ a ≤ c := by
  induction t with
  | nil => exact fun b hb _ => ⟨b, rfl, hb⟩
  | cons e r ih =>
    intro b hb ht
    obtain rfl := ht e (List.mem_cons_self e r)
    simp only [tsChainFrom]
    rw [if_pos hb]
    exact ih c le_rfl fun x hx => ht x (List.mem_cons_of_mem _ hx)

/-- A list of flush packets has no chunks, hence trivially positive ones. -/
theorem allChunksPos_flushlist (t : List WEv) (c : Int)
    (ht : ∀ e ∈ t, e = WEv.flushPkt c) : allChunksPos t = true := by
  induction t with
  | nil => rfl
  | cons e r ih =>
    obtain rfl := ht e (List.mem_cons_self e r)
    simp only [allChunksPos]
    exact ih fun x hx => ht x (List.mem_cons_of_mem _ hx)

/-- Flush values of a list of identical flush packets. -/
theorem flushVals_flushlist (t : List WEv) (c : Int)
    (ht : ∀ e ∈ t, e = WEv.flushPkt c) : ∀ v ∈ flushVals t, v = c := by
  induction t with
  | nil => simp [flushVals]
  | cons e r ih =>
    obtain rfl := ht e (List.mem_cons_self e r)
    simp only [flushVals, List.mem_cons]
    rintro v (rfl | hv)
    · rfl
    · exact ih (fun x hx => ht x (List.mem_cons_of_mem _ hx)) v hv

/-- The predicate `allChunksPos` splits over concatenation. -/
theorem allChunksPos_append (l1 l2 : List WEv) :
    allChunksPos (l1 ++ l2) = (allChunksPos l1 && allChunksPos l2) := by
  induction l1 with
  | nil => simp [allChunksPos]
  | cons e r ih =>
    cases e with
    | chunk p nb =>
      by_cases hnb : 1 ≤ nb <;> simp [allChunksPos, hnb, ih]
    | flushPkt a => simp [allChunksPos, ih]

/-- The projection `flushVals` splits over concatenation. -/
theorem flushVals_append (l1 l2 : List WEv) :
    flushVals (l1 ++ l2) = flushVals l1 ++ flushVals l2 := by
  induction l1 with
  | nil => simp [flushVals]
  | cons e r ih =>
    cases e with
    | chunk p nb => simp [flushVals, ih]
    | flushPkt a => simp [flushVals, ih]

/-- A successful chunk encode call assigns the accumulator as the frame's
timestamp before encoding and advances it by exactly the chunk's sample
count; the written packet, when any, carries that timestamp. -/
theorem encode_chunk_ok (pts : Int) (nb : Nat) (eo : EncodeOut) (pts1 : Int)
    (ev : Option WEv) (h : encode_audio_frame pts (some nb) eo = .ok (pts1, ev)) :
    pts1 = pts + (nb : Int) ∧ (ev = none ∨ ev = some (WEv.chunk pts nb)) := by
  unfold encode_audio_frame at h
  repeat' split at h
  all_goals simp_all

/-- A successful flush encode call leaves the accumulator unchanged; the
written packet, when any, records the unchanged accumulator. -/
theorem encode_flush_ok (pts : Int) (eo : EncodeOut) (pts1 : Int)
    (ev : Option WEv) (h : encode_audio_frame pts none eo = .ok (pts1, ev)) :
    pts1 = pts ∧ (ev = none ∨ ev = some (WEv.flushPkt pts)) := by
  unfold encode_audio_frame at h
  repeat' split at h
  all_goals simp_all
  all_goals (obtain ⟨rfl, rfl⟩ := h; exact Or.inr rfl)

/-- A successful `load_encode_and_write` consumes `min fifo fs` samples,
advances the accumulator by that count, and writes at most one packet
carrying the pre-advance accumulator. -/
theorem load_encode_and_write_ok (pts : Int) (fifo fs : Nat) (eo : EncodeOut)
    (pts1 : Int) (fifo1 : Nat) (ev : Option WEv)
    (h : load_encode_and_write pts fifo fs eo = .ok (pts1, fifo1, ev)) :
    pts1 = pts + ((min fifo fs : Nat) : Int) ∧ fifo1 = fifo - min fifo fs ∧
      (ev = none ∨ ev = some (WEv.chunk pts (min fifo fs))) := by
  simp only [load_encode_and_write] at h
  split at h
  · exact absurd h (by simp)
  · split at h
    · exact absurd h (by simp)
    · rename_i pts2 ev2 henc
      obtain ⟨h1, h2⟩ := encode_chunk_ok _ _ _ _ _ henc
      simp only [Except.ok.injEq, Prod.mk.injEq] at h
      obtain ⟨rfl, rfl, rfl⟩ := h
      exact ⟨h1, rfl, h2⟩

/-- Trace properties of a DRAINING loop that ran to its guard: the appended
packets replay from the entry accumulator to at most the exit accumulator,
are all chunks (no flush packets), and are positive-sized when the encoder
frame size is. -/
theorem drainLoop_ok_props (fs : Nat) (fin : Bool) (fuel : Nat) :
    ∀ (fifo : Nat) (pts : Int) (encs : List EncodeOut) (evs : List WEv)
      (fifo2 : Nat) (pts2 : Int) (encs2 : List EncodeOut) (evs2 : List WEv),
      drainLoop fs fin fuel fifo pts encs evs = some (.ok fifo2 pts2 encs2 evs2) →
      ∃ t, evs2 = evs ++ t ∧
        (∃ a, tsChainFrom pts t = some a ∧ a ≤ pts2) ∧ pts ≤ pts2 ∧
        (1 ≤ fs → allChunksPos t = true) ∧ flushVals t = [] := by
  induction fuel with
  | zero =>
    intro fifo pts encs evs fifo2 pts2 encs2 evs2 h
    exact absurd h (by simp [drainLoop])
  | succ fuel ih =>
    intro fifo pts encs evs fifo2 pts2 encs2 evs2 h
    simp only [drainLoop] at h
    split at h
    · rename_i hg
      split at h
      · exact absurd h (by simp)
      · rename_i pts1 fifo1 ev hle
        obtain ⟨t2, ht2, ⟨a, ha, hale⟩, hple, hcp, hfv⟩ :=
          ih _ _ _ _ _ _ _ _ h
        obtain ⟨hp1, hf1, hev⟩ := load_encode_and_write_ok _ _ _ _ _ _ _ hle
        have hmn : (0 : Int) ≤ ((min fifo fs : Nat) : Int) := Int.natCast_nonneg _
        rcases hev with rfl | rfl
        · refine ⟨t2, by simpa using ht2, ?_, by omega, hcp, hfv⟩
          obtain ⟨b2, hb2, hb2le⟩ :=
            tsChainFrom_mono t2 pts1 a pts (by omega) ha
          exact ⟨b2, hb2, le_trans hb2le hale⟩
        · have hc1 : 1 ≤ fs → 1 ≤ min fifo fs := by
            intro hfs
            rcases hg with hg | ⟨_, hg⟩
            · exact Nat.le_min.mpr ⟨le_trans hfs hg, hfs⟩
            · exact Nat.le_min.mpr ⟨hg, hfs⟩
          refine ⟨WEv.chunk pts (min fifo fs) :: t2, by simpa using ht2,
            ?_, by omega, ?_, by simp [flushVals, hfv]⟩
          · refine ⟨a, ?_, hale⟩
            simp only [tsChainFrom]
            rw [if_pos le_rfl, ← hp1]
            exact ha
          · intro hfs
            simp only [allChunksPos]
            rw [if_pos (hc1 hfs)]
            exact hcp hfs
    · simp only [Option.some.injEq, DRes.ok.injEq] at h
      obtain ⟨rfl, rfl, rfl, rfl⟩ := h
      exact ⟨[], by simp, ⟨pts, rfl, le_rfl⟩, le_rfl, fun _ => rfl, rfl⟩

/-- Trace properties of a DRAINING loop that failed mid-way. -/
theorem drainLoop_fail_props (fs : Nat) (fin : Bool) (fuel : Nat) :
    ∀ (fifo : Nat) (pts : Int) (encs : List EncodeOut) (evs : List WEv)
      (evs2 : List WEv),
      drainLoop fs fin fuel fifo pts encs evs = some (.fail evs2) →
      ∃ t, evs2 = evs ++ t ∧ (∃ a, tsChainFrom pts t = some a) ∧
        (1 ≤ fs → allChunksPos t = true) ∧ flushVals t = [] := by
  induction fuel with
  | zero =>
    intro fifo pts encs evs evs2 h
    exact absurd h (by simp [drainLoop])
  | succ fuel ih =>
    intro fifo pts encs evs evs2 h
    simp only [drainLoop] at h
    split at h
    · rename_i hg
      split at h
      · simp only [Option.some.injEq, DRes.fail.injEq] at h
        subst h
        exact ⟨[], by simp, ⟨pts, rfl⟩, fun _ => rfl, rfl⟩
      · rename_i pts1 fifo1 ev hle
        obtain ⟨t2, ht2, ⟨a, ha⟩, hcp, hfv⟩ := ih _ _ _ _ _ h
        obtain ⟨hp1, hf1, hev⟩ := load_encode_and_write_ok _ _ _ _ _ _ _ hle
        have hmn : (0 : Int) ≤ ((min fifo fs : Nat) : Int) := Int.natCast_nonneg _
        have hc1 : 1 ≤ fs → 1 ≤ min fifo fs := by
          intro hfs
          rcases hg with hg | ⟨_, hg⟩
          · exact Nat.le_min.mpr ⟨le_trans hfs hg, hfs⟩
          · exact Nat.le_min.mpr ⟨hg, hfs⟩
        rcases hev with rfl | rfl
        · refine ⟨t2, by simpa using ht2, ?_, hcp, hfv⟩
          obtain ⟨b2, hb2, _⟩ := tsChainFrom_mono t2 pts1 a pts (by omega) ha
          exact ⟨b2, hb2⟩
        · refine ⟨WEv.chunk pts (min fifo fs) :: t2, by simpa using ht2,
            ?_, ?_, by simp [flushVals, hfv]⟩
          · refine ⟨a, ?_⟩
            simp only [tsChainFrom]
            rw [if_pos le_rfl, ← hp1]
            exact ha
          · intro hfs
            simp only [allChunksPos]
            rw [if_pos (hc1 hfs)]
            exact hcp hfs
    · exact absurd h (by simp)

/-- The encoder flush loop never advances the accumulator; every packet it
writes records the entry accumulator. -/
theorem flushLoop_ok_props (fuel : Nat) :
    ∀ (pts : Int) (encs : List EncodeOut) (evs : List WEv) (pts2 : Int)
      (encs2 : List EncodeOut) (evs2 : List WEv),
      flushLoop fuel pts encs evs = some (.ok pts2 encs2 evs2) →
      pts2 = pts ∧ ∃ t, evs2 = evs ++ t ∧ ∀ e ∈ t, e = WEv.flushPkt pts := by
  induction fuel with
  | zero =>
    intro pts encs evs pts2 encs2 evs2 h
    exact absurd h (by simp [flushLoop])
  | succ fuel ih =>
    intro pts encs evs pts2 encs2 evs2 h
    simp only [flushLoop] at h
    split at h
    · exact absurd h (by simp)
    · rename_i pts1 ev henc
      obtain ⟨rfl, hev⟩ := encode_flush_ok _ _ _ _ henc
      split at h
      · obtain ⟨rfl, t2, ht2, hall⟩ := ih _ _ _ _ _ _ h
        refine ⟨rfl, ev.toList ++ t2, by simpa using ht2, ?_⟩
        intro e he
        rcases List.mem_append.mp he with he | he
        · rcases hev with rfl | rfl
          · simp at he
          · simpa using List.mem_singleton.mp (by simpa using he)
        · exact hall e he
      · simp only [Option.some.injEq, FRes.ok.injEq] at h
        obtain ⟨rfl, rfl, rfl⟩ := h
        refine ⟨rfl, ev.toList, rfl, ?_⟩
        intro e he
        rcases hev with rfl | rfl
        · simp at he
        · simpa using List.mem_singleton.mp (by simpa using he)

/-- A failing flush loop still only wrote packets recording the entry
accumulator. -/
theorem flushLoop_fail_props (fuel : Nat) :
    ∀ (pts : Int) (encs : List EncodeOut) (evs : List WEv) (evs2 : List WEv),
      flushLoop fuel pts encs evs = some (.fail evs2) →
      ∃ t, evs2 = evs ++ t ∧ ∀ e ∈ t, e = WEv.flushPkt pts := by
  induction fuel with
  | zero =>
    intro pts encs evs evs2 h
    exact absurd h (by simp [flushLoop])
  | succ fuel ih =>
    intro pts encs evs evs2 h
    simp only [flushLoop] at h
    split at h
    · simp only [Option.some.injEq, FRes.fail.injEq] at h
      subst h
      exact ⟨[], by simp, by simp⟩
    · rename_i pts1 ev henc
      obtain ⟨rfl, hev⟩ := encode_flush_ok _ _ _ _ henc
      split at h
      · obtain ⟨t2, ht2, hall⟩ := ih _ _ _ _ h
        refine ⟨ev.toList ++ t2, by simpa using ht2, ?_⟩
        intro e he
        rcases List.mem_append.mp he with he | he
        · rcases hev with rfl | rfl
          · simp at he
          · simpa using List.mem_singleton.mp (by simpa using he)
        · exact hall e he
      · exact absurd h (by simp)

/-- Trace properties of a completed main loop: the appended packets replay
from the entry accumulator, chunk packets are positive-sized when the
encoder frame size is, and every flush packet records the final
accumulator. -/
theorem mainLoop_done_props (fs o i : Nat) (fuel : Nat) :
    ∀ (decs : List DecodeOut) (encs : List EncodeOut) (fifo : Nat) (pts : Int)
      (evs : List WEv) (pts2 : Int) (evs2 : List WEv),
      mainLoop fs o i fuel decs encs fifo pts evs = some (.done pts2 evs2) →
      ∃ t, evs2 = evs ++ t ∧
        (∃ a, tsChainFrom pts t = some a ∧ a ≤ pts2) ∧ pts ≤ pts2 ∧
        (1 ≤ fs → allChunksPos t = true) ∧ (∀ v ∈ flushVals t, v = pts2) := by
  induction fuel with
  | zero =>
    intro decs encs fifo pts evs pts2 evs2 h
    exact absurd h (by simp [mainLoop])
  | succ fuel ih =>
    intro decs encs fifo pts evs pts2 evs2 h
    simp only [mainLoop] at h
    split at h
    · exact absurd h (by simp)
    · rename_i decs1 fifo1 finished hfill
      split at h
      · exact absurd h (by simp)
      · exact absurd h (by simp)
      · rename_i fifo2 pts1 encs1 evs1 hdrain
        obtain ⟨td, htd, ⟨a, ha, hale⟩, hple, hcpd, hfvd⟩ :=
          drainLoop_ok_props _ _ _ _ _ _ _ _ _ _ _ hdrain
        split at h
        · split at h
          · exact absurd h (by simp)
          · exact absurd h (by simp)
          · rename_i ptsf encsf evsf hflush
            simp only [Option.some.injEq, MRes.done.injEq] at h
            obtain ⟨rfl, rfl⟩ := h
            obtain ⟨rfl, tf, htf, hallf⟩ := flushLoop_ok_props _ _ _ _ _ _ _ hflush
            refine ⟨td ++ tf, by simp [htf, htd], ?_, hple, ?_, ?_⟩
            · rw [tsChainFrom_append, ha]
              obtain ⟨a2, ha2, ha2le⟩ := tsChainFrom_flushlist tf _ a hale hallf
              exact ⟨a2, ha2, ha2le⟩
            · intro hfs
              rw [allChunksPos_append, hcpd hfs,
                allChunksPos_flushlist tf _ hallf]
              rfl
            · intro v hv
              rw [flushVals_append, hfvd] at hv
              exact flushVals_flushlist tf _ hallf v (by simpa using hv)
        · obtain ⟨tr, htr, ⟨ar, har, harle⟩, hpler, hcpr, hfvr⟩ :=
            ih _ _ _ _ _ _ _ h
          refine ⟨td ++ tr, by simp [htr, htd], ?_, le_trans hple hpler, ?_, ?_⟩
          · rw [tsChainFrom_append, ha]
            obtain ⟨b2, hb2, hb2le⟩ := tsChainFrom_mono tr pts1 ar a hale har
            exact ⟨b2, hb2, le_trans hb2le harle⟩
          · intro hfs
            rw [allChunksPos_append, hcpd hfs, hcpr hfs]
            rfl
          · intro v hv
            rw [flushVals_append, hfvd] at hv
            exact hfvr v (by simpa using hv)

/-- Trace properties of a failed main loop: the packets written before the
failure still replay from the entry accumulator, with positive chunks and
one common flush value. -/
theorem mainLoop_fail_props (fs o i : Nat) (fuel : Nat) :
    ∀ (decs : List DecodeOut) (encs : List EncodeOut) (fifo : Nat) (pts : Int)
      (evs : List WEv) (evs2 : List WEv),
      mainLoop fs o i fuel decs encs fifo pts evs = some (.fail evs2) →
      ∃ t c, evs2 = evs ++ t ∧ (∃ a, tsChainFrom pts t = some a) ∧
        (1 ≤ fs → allChunksPos t = true) ∧ (∀ v ∈ flushVals t, v = c) := by
  induction fuel with
  | zero =>
    intro decs encs fifo pts evs evs2 h
    exact absurd h (by simp [mainLoop])
  | succ fuel ih =>
    intro decs encs fifo pts evs evs2 h
    simp only [mainLoop] at h
    split at h
    · simp only [Option.some.injEq, MRes.fail.injEq] at h
      subst h
      exact ⟨[], 0, by simp, ⟨pts, rfl⟩, fun _ => rfl, by simp [flushVals]⟩
    · rename_i decs1 fifo1 finished hfill
      split at h
      · exact absurd h (by simp)
      · rename_i evs1 hdrain
        simp only [Option.some.injEq, MRes.fail.injEq] at h
        subst h
        obtain ⟨td, htd, ⟨a, ha⟩, hcpd, hfvd⟩ :=
          drainLoop_fail_props _ _ _ _ _ _ _ _ hdrain
        exact ⟨td, 0, htd, ⟨a, ha⟩, hcpd, by simp [hfvd]⟩
      · rename_i fifo2 pts1 encs1 evs1 hdrain
        obtain ⟨td, htd, ⟨a, ha, hale⟩, hple, hcpd, hfvd⟩ :=
          drainLoop_ok_props _ _ _ _ _ _ _ _ _ _ _ hdrain
        split at h
        · split at h
          · exact absurd h (by simp)
          · rename_i evsf hflush
            simp only [Option.some.injEq, MRes.fail.injEq] at h
            subst h
            obtain ⟨tf, htf, hallf⟩ := flushLoop_fail_props _ _ _ _ _ hflush
            refine ⟨td ++ tf, pts1, by simp [htf, htd], ?_, ?_, ?_⟩
            · rw [tsChainFrom_append, ha]
              obtain ⟨a2, ha2, _⟩ := tsChainFrom_flushlist tf pts1 a hale hallf
              exact ⟨a2, ha2⟩
            · intro hfs
              rw [allChunksPos_append, hcpd hfs,
                allChunksPos_flushlist tf pts1 hallf]
              rfl
            · intro v hv
              rw [flushVals_append, hfvd] at hv
              exact flushVals_flushlist tf pts1 hallf v (by simpa using hv)
          · exact absurd h (by simp)
        · obtain ⟨tr, c, htr, ⟨ar, har⟩, hcpr, hfvr⟩ := ih _ _ _ _ _ _ h
          refine ⟨td ++ tr, c, by simp [htr, htd], ?_, ?_, ?_⟩
          · rw [tsChainFrom_append, ha]
            obtain ⟨b2, hb2, _⟩ := tsChainFrom_mono tr pts1 ar a hale har
            exact ⟨b2, hb2⟩
          · intro hfs
            rw [allChunksPos_append, hcpd hfs, hcpr hfs]
            rfl
          · intro v hv
            rw [flushVals_append, hfvd] at hv
            exact hfvr v (by simpa using hv)

/-- The packet-trace invariants, specialized to a main loop started from an
empty FIFO, zero accumulator and empty trace, completed run. -/
theorem mainLoop_props_start_done (fs o i fuel : Nat) (decs : List DecodeOut)
    (encs : List EncodeOut) (pts2 : Int) (evs2 : List WEv)
    (h : mainLoop fs o i fuel decs encs 0 0 [] = some (.done pts2 evs2)) :
    (tsChainFrom 0 evs2).isSome = true ∧
    (1 ≤ fs → allChunksPos evs2 = true ∧ strictChain (chunkPts evs2) = true) ∧
    (∀ v w, v ∈ flushVals evs2 → w ∈ flushVals evs2 → v = w) := by
  obtain ⟨t, ht, ⟨a, ha, _⟩, _, hcp, hfv⟩ :=
    mainLoop_done_props _ _ _ _ _ _ _ _ _ _ _ h
  simp only [List.nil_append] at ht
  subst ht
  refine ⟨by simp [ha], ?_, ?_⟩
  · intro hfs
    exact ⟨hcp hfs, (tsChain_strict _ _ _ ha (hcp hfs)).1⟩
  · intro v w hv hw
    rw [hfv v hv, hfv w hw]

/-- The packet-trace invariants, specialized to a main loop started from an
empty FIFO, zero accumulator and empty trace, failed run. -/
theorem mainLoop_props_start_fail (fs o i fuel : Nat) (decs : List DecodeOut)
    (encs : List EncodeOut) (evs2 : List WEv)
    (h : mainLoop fs o i fuel decs encs 0 0 [] = some (.fail evs2)) :
    (tsChainFrom 0 evs2).isSome = true ∧
    (1 ≤ fs → allChunksPos evs2 = true ∧ strictChain (chunkPts evs2) = true) ∧
    (∀ v w, v ∈ flushVals evs2 → w ∈ flushVals evs2 → v = w) := by
  obtain ⟨t, c, ht, ⟨a, ha⟩, hcp, hfv⟩ :=
    mainLoop_fail_props _ _ _ _ _ _ _ _ _ _ h
  simp only [List.nil_append] at ht
  subst ht
  refine ⟨by simp [ha], ?_, ?_⟩
  · intro hfs
    exact ⟨hcp hfs, (tsChain_strict _ _ _ ha (hcp hfs)).1⟩
  · intro v w hv hw
    rw [hfv v hv, hfv w hw]

/-- On success, `open_output_stream` reports the opened encoder's frame
size. -/
theorem open_output_stream_ok_fs (dl : Nat → Int) (args : TranscodingArgs)
    (oe : OpenOutputEnv) (inCtx : DecCtx) (ctx : EncCtxP) (fs : Nat)
    (evs : List Ev)
    (h : open_output_stream dl args oe inCtx = (.ok (ctx, fs), evs)) :
    fs = oe.frame_size := by
  unfold open_output_stream at h
  repeat' split at h
  all_goals simp_all

/-- Claim C3, amended: chunk encode calls assign the accumulator to the
frame's timestamp before the encode call and advance it by exactly the
chunk's sample count; flush calls leave it unchanged. Hence in every
`transcoding` run the written packets replay the accumulator discipline
from 0; when the encoder frame size holds at least one sample, every
written chunk is positive-sized and the chunk timestamps are strictly
increasing; and all encoder-flush packets record one and the same
accumulator value — the accumulator does not advance across them. -/
theorem C3_pts_discipline :
    (∀ (pts : Int) (nb : Nat) (eo : EncodeOut) (pts1 : Int) (ev : Option WEv),
      encode_audio_frame pts (some nb) eo = .ok (pts1, ev) →
      pts1 = pts + (nb : Int) ∧ (ev = none ∨ ev = some (WEv.chunk pts nb))) ∧
    (∀ (pts : Int) (eo : EncodeOut) (pts1 : Int) (ev : Option WEv),
      encode_audio_frame pts none eo = .ok (pts1, ev) →
      pts1 = pts ∧ (ev = none ∨ ev = some (WEv.flushPkt pts))) ∧
    (∀ (env : Env) (fuel : Nat) (r : TResult), transcoding fuel env = some r →
      (tsChainFrom 0 r.events).isSome = true ∧
      (1 ≤ env.out.frame_size →
        allChunksPos r.events = true ∧ strictChain (chunkPts r.events) = true) ∧
      (∀ v w, v ∈ flushVals r.events → w ∈ flushVals r.events → v = w)) := by
  refine ⟨encode_chunk_ok, encode_flush_ok, ?_⟩
  intro env fuel r h
  simp only [transcoding] at h
  repeat' split at h
  all_goals (try exact Option.noConfusion h)
  all_goals obtain rfl := Option.some.inj h
  all_goals simp only [failRes]
  all_goals
    first
      | exact ⟨rfl, fun _ => ⟨rfl, rfl⟩,
          fun v w hv hw => absurd hv (List.not_mem_nil v)⟩
      | (have hfs := open_output_stream_ok_fs _ _ env.out _ _ _ _ (by assumption)
         rw [← hfs]
         first
           | exact mainLoop_props_start_fail _ _ _ _ _ _ _ (by assumption)
           | exact mainLoop_props_start_done _ _ _ _ _ _ _ _ (by assumption))

/-- Witness for the amended C3 at the concrete run `envC3`. -/
theorem C3_pts_discipline_witness :
    (tsChainFrom 0 [WEv.chunk 0 4, WEv.flushPkt 4, WEv.flushPkt 4]).isSome = true ∧
    (1 ≤ envC3.out.frame_size →
      allChunksPos [WEv.chunk 0 4, WEv.flushPkt 4, WEv.flushPkt 4] = true ∧
      strictChain (chunkPts [WEv.chunk 0 4, WEv.flushPkt 4, WEv.flushPkt 4]) = true) ∧
    (∀ v w, v ∈ flushVals [WEv.chunk 0 4, WEv.flushPkt 4, WEv.flushPkt 4] →
      w ∈ flushVals [WEv.chunk 0 4, WEv.flushPkt 4, WEv.flushPkt 4] → v = w) :=
  C3_pts_discipline.2.2 envC3 8
    ⟨0, [Ev.dstAlloc, Ev.encAlloc, Ev.freeFifo, Ev.freeSwr, Ev.freeEncCtx,
        Ev.freeOutFmt, Ev.freeDecCtx, Ev.freeInFmt],
      [WEv.chunk 0 4, WEv.flushPkt 4, WEv.flushPkt 4], some ⟨100, 4, 44100⟩⟩
    rfl

/-- Claim C3, counterexample: a successful concrete run in which the encoder
emits two delayed packets during the end-of-stream flush: the accumulator
values at the three written packets are 4, 4, 4 — the accumulator is not
strictly increasing from one written chunk to the next once the
encoder-flush packets are included, refuting the claim as stated. -/
theorem C3_counterexample :
    transcoding 8 envC3 =
      some ⟨0, [Ev.dstAlloc, Ev.encAlloc, Ev.freeFifo, Ev.freeSwr,
          Ev.freeEncCtx, Ev.freeOutFmt, Ev.freeDecCtx, Ev.freeInFmt],
        [WEv.chunk 0 4, WEv.flushPkt 4, WEv.flushPkt 4], some ⟨100, 4, 44100⟩⟩ ∧
    accSeq [WEv.chunk 0 4, WEv.flushPkt 4, WEv.flushPkt 4] = [4, 4, 4] ∧
    strictChain (accSeq [WEv.chunk 0 4, WEv.flushPkt 4, WEv.flushPkt 4]) = false := by
  refine ⟨rfl, by decide, by decide⟩

end Transcoding
